import Mathlib

/-!
Verification of the SSH MCP server's connection-management core against its
natural-language specification.  The Go sources are shallowly embedded:
pure computations become Lean functions, the stateful Manager / Pool / Client
objects become explicit state records, and the remote host (network, shell)
is abstracted into oracle arguments whose behaviour is constrained by
hypotheses.  Machine strings are Lean `String`s; Go's byte-based `len` and
slicing are rendered with `String.length` / `String.take` (they coincide on
the ASCII data exercised here).
-/

namespace SSHMCP

/-- Substring occurrence test on character lists (structural recursion so
that the kernel can evaluate it on concrete inputs). -/
def containsSub : List Char → List Char → Bool
  | l, pat =>
    pat.isPrefixOf l ||
      match l with
      | [] => false
      | _ :: rest => containsSub rest pat

/-- Go strings.Contains: true when pat occurs as a substring of s. -/
def strContains (s pat : String) : Bool :=
  containsSub s.data pat.data

/-- Go byte slicing s[:n], rendered as a character-level take. -/
def strTake (s : String) (n : Nat) : String :=
  ⟨s.data.take n⟩

/-- Go strings.TrimSpace: drop whitespace from both ends. -/
def strTrim (s : String) : String :=
  ⟨((s.data.dropWhile Char.isWhitespace).reverse.dropWhile Char.isWhitespace).reverse⟩

/-- RunResult from internal/ssh/client.go lines 212-217. -/
structure RunResult where
  stdout : String
  stderr : String
  exitCode : Int
  cwd : String
deriving DecidableEq

/-- Output-size limit of Manager.Execute (part_007 line 590): 50 KiB. -/
def maxBytes : Nat := 51200

/-- Output shaping of Manager.Execute, part_007 lines 570-596:
build stdout then stderr separated by a newline, return "(No output)"
when the builder is empty, append the exit-code marker when nonzero,
then truncate at maxBytes with a visible marker. -/
def executeFormat (r : RunResult) : String :=
  let output := if r.stdout ≠ "" then r.stdout else ""
  let output :=
    if r.stderr ≠ "" then
      (if output.length > 0 then output ++ "\n" else output) ++ r.stderr
    else output
  if output.length = 0 then "(No output)"
  else
    let output :=
      if r.exitCode ≠ 0 then output ++ "\n[Exit Code: " ++ toString r.exitCode ++ "]"
      else output
    if output.length > maxBytes then strTake output maxBytes ++ "\n... [Output truncated]"
    else output

/-- Merge of the two streams as the spec words it: stdout first, then stderr
on a new line if stderr is non-empty. -/
def mergeStreams (so se : String) : String :=
  if se = "" then so
  else if so = "" then se
  else so ++ "\n" ++ se

/-- Exit-code marker appended whenever the exit code is nonzero. -/
def appendExitMarker (n : Int) (o : String) : String :=
  if n ≠ 0 then o ++ "\n[Exit Code: " ++ toString n ++ "]" else o

/-- Truncation at the 50 KiB limit with a visible marker. -/
def truncateOutput (o : String) : String :=
  if o.length > maxBytes then strTake o maxBytes ++ "\n... [Output truncated]" else o

/-- Reference formatter following the amended wording of the spec sentence:
when both streams are empty the result is "(No output)" regardless of the
exit code; otherwise the merged streams carry the exit-code marker (when
nonzero) and are truncated at the byte limit. -/
def executeSpecFormat (r : RunResult) : String :=
  if r.stdout = "" ∧ r.stderr = "" then "(No output)"
  else truncateOutput (appendExitMarker r.exitCode (mergeStreams r.stdout r.stderr))

theorem length_pos_of_ne_empty {s : String} (h : s ≠ "") : 0 < s.length := by
  cases s with
  | mk data =>
    cases data with
    | nil => exact absurd rfl h
    | cons a l => simp [String.length]

theorem empty_append_str (s : String) : "" ++ s = s := by
  cases s
  rfl

set_option maxRecDepth 4000 in
/-- Claim C3, amended: the Execute formatter returns "(No output)" whenever
both streams are empty, regardless of the exit code (the exit-code marker is
only ever appended to non-empty output); otherwise it returns stdout, then
stderr on a new line when stderr is non-empty, with the marker appended when
the exit code is nonzero, truncated at the 50 KiB limit with a visible
truncation marker. -/
theorem executeFormat_eq_spec (r : RunResult) : executeFormat r = executeSpecFormat r := by
  rcases r with ⟨so, se, ec, cw⟩
  by_cases hso : so = ""
  · by_cases hse : se = ""
    · subst hso; subst hse; rfl
    · subst hso
      have h1 : ("" : String) ++ se = se := empty_append_str se
      have h2 : ¬ se.length = 0 := by
        have := length_pos_of_ne_empty hse
        omega
      simp only [executeFormat, executeSpecFormat, mergeStreams, appendExitMarker,
        truncateOutput, hse, h1, h2]
      simp [hse, h2]
  · by_cases hse : se = ""
    · subst hse
      have h2 : ¬ so.length = 0 := by
        have := length_pos_of_ne_empty hso
        omega
      simp only [executeFormat, executeSpecFormat, mergeStreams, appendExitMarker,
        truncateOutput, hso, h2]
      simp [hso, h2]
    · have h1 : 0 < so.length := length_pos_of_ne_empty hso
      have h2 : ¬ (so ++ "\n" ++ se).length = 0 := by
        simp only [String.length_append]
        omega
      simp only [executeFormat, executeSpecFormat, mergeStreams, appendExitMarker,
        truncateOutput, hso, hse, h1, h2]
      simp [hso, hse, h1, h2]
      exact fun h => absurd h (by omega)

/-- Claim C3 counterexample: for a result with both streams empty and exit
code 1, Execute returns the literal "(No output)" with no exit-code marker,
contradicting the claim that the marker is still carried. -/
theorem execute_empty_nonzero_no_marker :
    executeFormat ⟨"", "", 1, "/"⟩ = "(No output)" ∧
    strContains (executeFormat ⟨"", "", 1, "/"⟩) "[Exit Code:" = false := by
  decide

/-! Authentication method selection (claim C1). -/

/-- Abstract identity of a parsed private key (stands in for ssh.Signer). -/
abbrev Signer := String

/-- One SSH authentication method offered to the transport. -/
inductive AuthMethod where
  | publicKeys (k : Signer)
  | password (p : String)
deriving DecidableEq

/-- Credentials from internal/ssh/client.go lines 28-35. -/
structure Credentials where
  host : String
  port : Nat
  username : String
  password : String
  privateKey : Option Signer
  viaAlias : String
deriving DecidableEq

/-- Auth-method list assembly of Client.connect, internal/ssh/client.go
lines 68-78: append a public-key method when a private key is present,
then a password method when the password is non-empty; error when the
resulting list is empty. -/
def authMethods (c : Credentials) : Except String (List AuthMethod) :=
  let ms : List AuthMethod :=
    match c.privateKey with
    | some k => [AuthMethod.publicKeys k]
    | none => []
  let ms := if c.password ≠ "" then ms ++ [AuthMethod.password c.password] else ms
  if ms.length = 0 then
    Except.error "no authentication method provided (key or password required)"
  else Except.ok ms

/-- ConnectOptions from part_007 lines 332-340. -/
structure ConnectOptions where
  host : String
  port : Nat
  username : String
  password : String
  privateKeyPath : String
  aliasName : String
  viaAlias : String
deriving DecidableEq

/-- Credential assembly of Manager.Connect, part_007 lines 392-417.
Reading and parsing the explicit key file is abstracted into the parseKey
oracle; the Key Store's LoadPrivateKey into the systemKey oracle.  The
caller-supplied password is always copied into the credentials. -/
def buildCreds (opts : ConnectOptions) (parseKey : String → Except String Signer)
    (systemKey : Except String Signer) : Except String Credentials :=
  let base : Credentials :=
    { host := opts.host, port := opts.port, username := opts.username,
      password := opts.password, privateKey := none, viaAlias := opts.viaAlias }
  if opts.privateKeyPath ≠ "" then
    match parseKey opts.privateKeyPath with
    | Except.error e => Except.error ("failed to parse private key: " ++ e)
    | Except.ok k => Except.ok { base with privateKey := some k }
  else if opts.password = "" then
    match systemKey with
    | Except.error e => Except.error ("no auth provided and system key unavailable: " ++ e)
    | Except.ok k => Except.ok { base with privateKey := some k }
  else Except.ok base

set_option maxRecDepth 4000 in
/-- Claim C1, amended: for every Connect whose credential assembly succeeds,
the method list offered to the transport contains exactly one method in the
three mutually exclusive cases (explicit key only, password only, neither:
system identity); but when the caller supplies BOTH an explicit private key
and a password, the list offers both methods, the key first. -/
theorem connect_auth_methods (opts : ConnectOptions)
    (parseKey : String → Except String Signer) (systemKey : Except String Signer)
    (c : Credentials) (h : buildCreds opts parseKey systemKey = Except.ok c) :
    (opts.privateKeyPath ≠ "" → opts.password = "" →
      ∃ k, parseKey opts.privateKeyPath = Except.ok k ∧
        authMethods c = Except.ok [AuthMethod.publicKeys k]) ∧
    (opts.privateKeyPath = "" → opts.password ≠ "" →
      authMethods c = Except.ok [AuthMethod.password opts.password]) ∧
    (opts.privateKeyPath = "" → opts.password = "" →
      ∃ k, systemKey = Except.ok k ∧
        authMethods c = Except.ok [AuthMethod.publicKeys k]) ∧
    (opts.privateKeyPath ≠ "" → opts.password ≠ "" →
      ∃ k, parseKey opts.privateKeyPath = Except.ok k ∧
        authMethods c = Except.ok [AuthMethod.publicKeys k, AuthMethod.password opts.password]) := by
  simp only [buildCreds] at h
  refine ⟨?_, ?_, ?_, ?_⟩
  · intro hp hw
    rw [if_pos hp] at h
    cases hk : parseKey opts.privateKeyPath with
    | error e => rw [hk] at h; exact absurd h (by simp)
    | ok k =>
      rw [hk] at h
      injection h with h
      subst h
      exact ⟨k, rfl, by simp [authMethods, hw]⟩
  · intro hp hw
    rw [if_neg (fun hne => hne hp), if_neg hw] at h
    injection h with h
    subst h
    simp [authMethods, hw]
  · intro hp hw
    rw [if_neg (fun hne => hne hp), if_pos hw] at h
    cases hk : systemKey with
    | error e => rw [hk] at h; exact absurd h (by simp)
    | ok k =>
      rw [hk] at h
      injection h with h
      subst h
      exact ⟨k, rfl, by simp [authMethods, hw]⟩
  · intro hp hw
    rw [if_pos hp] at h
    cases hk : parseKey opts.privateKeyPath with
    | error e => rw [hk] at h; exact absurd h (by simp)
    | ok k =>
      rw [hk] at h
      injection h with h
      subst h
      exact ⟨k, rfl, by simp [authMethods, hw]⟩

/-- Claim C1 witness: explicit key and no password, concretely: exactly one
method, the key, is offered. -/
theorem connect_auth_methods_witness :
    authMethods ⟨"h", 22, "u", "", some "K", ""⟩ = Except.ok [AuthMethod.publicKeys "K"] := by
  obtain ⟨k, hk, hm⟩ :=
    (connect_auth_methods ⟨"h", 22, "u", "", "/key", "", ""⟩
      (fun _ => Except.ok "K") (Except.ok "S")
      ⟨"h", 22, "u", "", some "K", ""⟩ rfl).1 (by decide) rfl
  injection hk with hk
  subst hk
  exact hm

/-- Claim C1 counterexample: when the caller supplies both a password and an
explicit private key, the credential assembly keeps both and the transport is
offered TWO methods, a key method and a password method simultaneously. -/
theorem connect_auth_methods_both_offered :
    buildCreds ⟨"h", 22, "u", "pw", "/key", "", ""⟩ (fun _ => Except.ok "K") (Except.ok "S")
        = Except.ok ⟨"h", 22, "u", "pw", some "K", ""⟩ ∧
    authMethods ⟨"h", 22, "u", "pw", some "K", ""⟩
        = Except.ok [AuthMethod.publicKeys "K", AuthMethod.password "pw"] :=
  ⟨rfl, rfl⟩

/-! Alias generation (claim C2). -/

/-- Suffixed alias candidate, Go fmt "%s-%d". -/
def aliasCand (base : String) (i : Nat) : String :=
  base ++ "-" ++ toString i

/-- Suffix search loop of Manager.generateAlias, part_007 lines 317-328.
The Go loop `for i := 2; i < 100; i++` is rendered with a structural fuel
argument counting the candidates left to try (98 of them, suffixes 2..99);
when the fuel runs out every candidate was taken and the loop falls through
to the unconditional base-100 fallback of lines 325-328. -/
def genAliasLoopFuel (conns : List String) (base : String) : Nat → Nat → String
  | _, 0 => aliasCand base 100
  | i, fuel + 1 =>
    if conns.contains (aliasCand base i) then genAliasLoopFuel conns base (i + 1) fuel
    else aliasCand base i

/-- Manager.generateAlias, part_007 lines 305-329: user@host when that key
is absent from the connection map, else the suffix search; the chosen name
is reserved by inserting it into the map. -/
def generateAlias (conns : List String) (username host : String) : String × List String :=
  let base := username ++ "@" ++ host
  if conns.contains base then
    let a := genAliasLoopFuel conns base 2 98
    (a, a :: conns)
  else (base, base :: conns)

theorem genAliasLoopFuel_finds (conns : List String) (base : String) :
    ∀ fuel i n, i ≤ n → n < i + fuel →
      (∀ j, i ≤ j → j < n → conns.contains (aliasCand base j) = true) →
      conns.contains (aliasCand base n) = false →
      genAliasLoopFuel conns base i fuel = aliasCand base n := by
  intro fuel
  induction fuel with
  | zero => intro i n h1 h2 _ _; omega
  | succ fuel ih =>
    intro i n h1 h2 hall hfree
    by_cases hin : i = n
    · subst hin
      simp only [genAliasLoopFuel]
      rw [if_neg (by rw [hfree]; decide)]
    · have hi : conns.contains (aliasCand base i) = true := hall i le_rfl (by omega)
      simp only [genAliasLoopFuel]
      rw [if_pos hi]
      exact ih (i + 1) n (by omega) (by omega) (fun j hj1 hj2 => hall j (by omega) hj2) hfree

theorem genAliasLoopFuel_exhausted (conns : List String) (base : String) :
    ∀ fuel i, (∀ j, i ≤ j → j < i + fuel → conns.contains (aliasCand base j) = true) →
      genAliasLoopFuel conns base i fuel = aliasCand base 100 := by
  intro fuel
  induction fuel with
  | zero => intro i _; rfl
  | succ fuel ih =>
    intro i hall
    have hi : conns.contains (aliasCand base i) = true := hall i le_rfl (by omega)
    simp only [genAliasLoopFuel]
    rw [if_pos hi]
    exact ih (i + 1) (fun j hj1 hj2 => hall j (by omega) (by omega))

/-- Claim C2, amended: with no caller-supplied alias the generated alias is
user@host when that name is free; otherwise the first free name among
user@host-2 .. user@host-99; and when user@host and all of those are taken
the operation does NOT give up with an error: it returns user@host-100
unconditionally (reserving it even if it collides). -/
theorem generateAlias_spec (conns : List String) (u hs : String) :
    (conns.contains (u ++ "@" ++ hs) = false →
      generateAlias conns u hs = (u ++ "@" ++ hs, (u ++ "@" ++ hs) :: conns)) ∧
    (conns.contains (u ++ "@" ++ hs) = true →
      ∀ n, 2 ≤ n → n < 100 →
        (∀ j, 2 ≤ j → j < n → conns.contains (aliasCand (u ++ "@" ++ hs) j) = true) →
        conns.contains (aliasCand (u ++ "@" ++ hs) n) = false →
        (generateAlias conns u hs).1 = aliasCand (u ++ "@" ++ hs) n) ∧
    (conns.contains (u ++ "@" ++ hs) = true →
      (∀ j, 2 ≤ j → j < 100 → conns.contains (aliasCand (u ++ "@" ++ hs) j) = true) →
      (generateAlias conns u hs).1 = aliasCand (u ++ "@" ++ hs) 100) := by
  refine ⟨?_, ?_, ?_⟩
  · intro hfree
    simp only [generateAlias]
    rw [if_neg (by rw [hfree]; decide)]
  · intro htaken n h2 h100 hall hfree
    simp only [generateAlias]
    rw [if_pos htaken]
    exact genAliasLoopFuel_finds conns (u ++ "@" ++ hs) 98 2 n h2 (by omega) hall hfree
  · intro htaken hall
    simp only [generateAlias]
    rw [if_pos htaken]
    exact genAliasLoopFuel_exhausted conns (u ++ "@" ++ hs) 98 2
      (fun j hj1 hj2 => hall j hj1 (by omega))

/-- Claim C2 witness: with u@h and u@h-2 taken, the generated alias is the
first free suffixed name u@h-3. -/
theorem generateAlias_spec_witness :
    (generateAlias ["u@h", "u@h-2"] "u" "h").1 = aliasCand ("u" ++ "@" ++ "h") 3 :=
  (generateAlias_spec ["u@h", "u@h-2"] "u" "h").2.1 (by decide) 3 (by decide) (by decide)
    (by intro j hj2 hj3
        have hj : j = 2 := by omega
        subst hj
        decide)
    (by decide)

/-- Connection map in which u@h and the 98 suffixed names u@h-2 .. u@h-99
are all taken. -/
def allTakenConns : List String :=
  "u@h" :: (List.range' 2 98).map (fun j => "u@h-" ++ toString j)

/-- Claim C2 counterexample: when u@h and every suffixed name up to u@h-99
is taken, generateAlias does not give up with an error; it still returns an
alias, namely the fallback u@h-100. -/
theorem generateAlias_exhausted_returns_100 :
    (generateAlias allTakenConns "u" "h").1 = "u@h-100" := by
  decide

/-! Manager and Pool state (claims C4, C10, and the Run claims). -/

/-- Per-connection client state tracked across calls: the current working
directory (internal/ssh/client.go line 22). -/
structure ClientState where
  cwd : String
deriving DecidableEq

/-- Manager state, part_007 lines 267-274: the alias map (None entries are
reservation placeholders) and the primary alias. -/
structure ManagerState where
  connections : List (String × Option ClientState)
  primary : String
deriving DecidableEq

/-- Manager.Close, part_007 lines 786-797: close every non-nil client, then
reset the connection map and clear the primary alias. -/
def managerClose (_m : ManagerState) : ManagerState :=
  { connections := [], primary := "" }

/-- Pool state: the stop channel's closed flag, the optional global manager,
and the two registries (session-id keyed and header keyed). -/
structure PoolState where
  stopClosed : Bool
  global : Option ManagerState
  managers : List (String × ManagerState)
  headerCache : List (String × ManagerState)
deriving DecidableEq

/-- Pool.Close from internal/ssh/client.go lines 560-594, the guarded
variant: a select on the stop channel returns immediately when it is already
closed; otherwise it closes the channel, closes the global manager if any,
then closes and drains both registries. -/
def poolCloseGuarded (p : PoolState) : PoolState :=
  if p.stopClosed then p
  else
    { stopClosed := true,
      global := p.global.map managerClose,
      managers := [],
      headerCache := [] }

/-- Pool.Close from internal/ssh/pool.go lines 243-269, the unguarded
variant: close(p.stopCleanup) runs unconditionally; in Go, closing an
already-closed channel panics, rendered here as an error value. -/
def poolCloseUnguarded (p : PoolState) : Except String PoolState :=
  if p.stopClosed then Except.error "close of closed channel"
  else
    Except.ok
      { stopClosed := true,
        global := p.global.map managerClose,
        managers := [],
        headerCache := [] }

/-- Claim C4 counterexample: the Pool.Close of pool.go lines 243-269 closes
the stop channel unconditionally, so a second Close panics (close of closed
channel) instead of completing: the claim's "completes without panic" fails
on that cited implementation. -/
theorem poolClose_double_panics :
    poolCloseUnguarded ⟨false, none, [("s", ⟨[("a", some ⟨"/"⟩)], "a"⟩)], []⟩
        = Except.ok ⟨true, none, [], []⟩ ∧
    poolCloseUnguarded ⟨true, none, [], []⟩ = Except.error "close of closed channel" :=
  ⟨rfl, rfl⟩

/-- Claim C4, amended: the guarded Pool.Close variant (client.go lines
560-594) is idempotent: the second call returns immediately without panic
and leaves the pool exactly in the closed state the first call produced
(stop channel closed, global manager closed if any, both registries closed
and emptied). -/
theorem poolCloseGuarded_idempotent (p : PoolState) :
    poolCloseGuarded (poolCloseGuarded p) = poolCloseGuarded p ∧
    (p.stopClosed = false →
      (poolCloseGuarded p).stopClosed = true ∧
      (poolCloseGuarded p).managers = [] ∧
      (poolCloseGuarded p).headerCache = [] ∧
      (poolCloseGuarded p).global = p.global.map managerClose) := by
  constructor
  · by_cases h : p.stopClosed
    · simp [poolCloseGuarded, h]
    · simp [poolCloseGuarded, h]
  · intro h
    simp [poolCloseGuarded, h]

/-- Claim C4 witness: a concrete open pool with one header entry, closed
twice: the second Close is a no-op on the closed state. -/
theorem poolCloseGuarded_idempotent_witness :
    poolCloseGuarded (poolCloseGuarded ⟨false, none, [], [("k", ⟨[], ""⟩)]⟩)
        = poolCloseGuarded ⟨false, none, [], [("k", ⟨[], ""⟩)]⟩ ∧
    (poolCloseGuarded ⟨false, none, [], [("k", ⟨[], ""⟩)]⟩).headerCache = [] :=
  ⟨(poolCloseGuarded_idempotent _).1, ((poolCloseGuarded_idempotent _).2 rfl).2.2.1⟩

/-! Disconnect (claim C10). -/

/-- Sweep of Manager.Disconnect's empty-alias branch, part_007 lines
449-459: close every non-nil client, count the closes, delete every entry.
Returns the count and the aliases whose clients were closed. -/
def disconnectAllSweep : List (String × Option ClientState) → Nat × List String
  | [] => (0, [])
  | (a, some _) :: rest =>
    let (n, closed) := disconnectAllSweep rest
    (n + 1, a :: closed)
  | (_, none) :: rest => disconnectAllSweep rest

/-- Manager.Disconnect, part_007 lines 445-483: with an empty alias, close
and remove everything and clear the primary; with a named alias, close and
remove that entry, promoting a new primary when needed.  Go's map iteration
is rendered as list traversal. -/
def disconnect (m : ManagerState) (a : String) : Except String (String × ManagerState × List String) :=
  if a = "" then
    let (count, closed) := disconnectAllSweep m.connections
    Except.ok ("Disconnected all (" ++ toString count ++ ") connections",
      { connections := [], primary := "" }, closed)
  else
    match m.connections.find? (fun p => p.1 == a) with
    | none => Except.error ("no connection with alias \x27" ++ a ++ "\x27")
    | some (_, copt) =>
      let conns := m.connections.filter (fun p => p.1 != a)
      let closed := match copt with
        | some _ => [a]
        | none => []
      let primary :=
        if m.primary == a then
          match conns.find? (fun p => p.2.isSome) with
          | some (b, _) => b
          | none => ""
        else m.primary
      Except.ok ("Disconnected \x27" ++ a ++ "\x27",
        { connections := conns, primary := primary }, closed)

/-- Claim C10: Disconnect with an empty alias never fails: it closes exactly
the live connections, removes every entry (live or reservation placeholder),
clears the primary alias, and reports the count of live connections closed. -/
theorem disconnect_all_empty_alias (m : ManagerState) :
    disconnect m "" =
      Except.ok
        ("Disconnected all ("
            ++ toString (m.connections.filter (fun p => p.2.isSome)).length
            ++ ") connections",
          { connections := [], primary := "" },
          (m.connections.filter (fun p => p.2.isSome)).map (fun p => p.1)) := by
  have hsweep : ∀ l : List (String × Option ClientState),
      disconnectAllSweep l =
        ((l.filter (fun p => p.2.isSome)).length,
          (l.filter (fun p => p.2.isSome)).map (fun p => p.1)) := by
    intro l
    induction l with
    | nil => rfl
    | cons p rest ih =>
      rcases p with ⟨a, copt⟩
      cases copt with
      | none => simp [disconnectAllSweep, ih]
      | some c => simp [disconnectAllSweep, ih]
  simp [disconnect, hsweep]

/-! Per-alias lock traces of the sync tool (claim C5). -/

/-- A lock acquisition or release event on a per-alias mutex. -/
inductive LockEvent where
  | acq (a : String)
  | rel (a : String)
deriving DecidableEq

/-- Lock events of Manager.ReadFile, part_007 lines 653-655: lock the alias
mutex, perform the SFTP read, unlock on return. -/
def readFileLockTrace (a : String) : List LockEvent :=
  [LockEvent.acq a, LockEvent.rel a]

/-- Lock events of Manager.WriteFile, part_007 lines 689-691. -/
def writeFileLockTrace (a : String) : List LockEvent :=
  [LockEvent.acq a, LockEvent.rel a]

/-- Lock events of the sync handler, internal/tools/files.go lines 378-401:
Manager.ReadFile on the source alias, then — only after it has returned —
Manager.WriteFile on the destination alias. -/
def syncLockTrace (src dst : String) : List LockEvent :=
  readFileLockTrace src ++ writeFileLockTrace dst

/-- Replay of a lock trace recording the maximum number of locks held. -/
def maxHeldAux : List LockEvent → List String → Nat → Nat
  | [], _, m => m
  | LockEvent.acq a :: rest, held, m => maxHeldAux rest (a :: held) (max m (a :: held).length)
  | LockEvent.rel a :: rest, held, m => maxHeldAux rest (held.erase a) m

/-- Maximum number of per-alias locks held simultaneously while replaying
the trace. -/
def maxLocksHeld (tr : List LockEvent) : Nat :=
  maxHeldAux tr [] 0

/-- First lock acquired in a trace. -/
def firstAcquired : List LockEvent → Option String
  | [] => none
  | LockEvent.acq a :: _ => some a
  | LockEvent.rel _ :: rest => firstAcquired rest

/-- Claim C5 counterexample: for source "b" and destination "a" the sync
trace acquires "b" first — argument order, not the alphabetic order the
claim asserts — and at no point does it hold two locks at once, so the claim
that sync holds two per-alias locks acquired in a single alias-sorted total
order fails on the code. -/
theorem sync_lock_trace_argument_order :
    syncLockTrace "b" "a" =
      [LockEvent.acq "b", LockEvent.rel "b", LockEvent.acq "a", LockEvent.rel "a"] ∧
    firstAcquired (syncLockTrace "b" "a") = some "b" ∧
    maxLocksHeld (syncLockTrace "b" "a") = 1 := by
  decide

/-- Claim C5, amended: sync never holds two per-alias locks simultaneously:
the source-alias lock is acquired and released inside ReadFile before the
destination-alias lock is acquired inside WriteFile (argument order, source
first), so two concurrent sync calls with the aliases swapped never deadlock
on the per-alias locks. -/
theorem sync_lock_trace_no_two_locks (src dst : String) :
    syncLockTrace src dst =
      [LockEvent.acq src, LockEvent.rel src, LockEvent.acq dst, LockEvent.rel dst] ∧
    maxLocksHeld (syncLockTrace src dst) ≤ 1 := by
  refine ⟨rfl, ?_⟩
  simp [maxLocksHeld, syncLockTrace, readFileLockTrace, writeFileLockTrace, maxHeldAux,
    List.erase_cons_head]

/-! Run retry on transport loss (claim C7). -/

/-- isConnectionError, part_007 lines 552-561: substring match against the
four channel-loss signatures. -/
def isConnectionError (e : String) : Bool :=
  strContains e "connection reset" || strContains e "broken pipe" ||
    strContains e "EOF" || strContains e "connection refused"

/-- Outcome of one client.Run call: either a completed command (any exit
code) or a transport-level error. -/
inductive RunOutcome where
  | ok (r : RunResult)
  | err (e : String)
deriving DecidableEq

/-- Transcript of one Manager.Run call: number of client.Run attempts,
whether a reconnect was attempted, the jump alias the reconnect dialled
through, and the outcome surfaced to the caller. -/
structure RunTranscript where
  attempts : Nat
  reconnectTried : Bool
  reconnectVia : Option String
  outcome : RunOutcome
deriving DecidableEq

/-- Manager.getJumpClient's alias selection, part_007 lines 542-549: an
empty via means no jump host, otherwise the stored via alias is used. -/
def getJumpAlias (viaAlias : String) : Option String :=
  if viaAlias = "" then none else some viaAlias

/-- Error-recovery logic of Manager.Run, part_007 lines 508-539: run once;
when the error matches a channel-loss signature, reconnect through the
client's stored via alias and retry exactly once, surfacing the retry's
outcome (or the reconnect failure); on any other error, or on success
(including a command's nonzero exit code, which client.Run reports as
success), surface directly with no reconnect. -/
def managerRunRetry (clientVia : String) (first : RunOutcome)
    (reconnect : Except String Unit) (second : RunOutcome) : RunTranscript :=
  match first with
  | RunOutcome.ok r => ⟨1, false, none, RunOutcome.ok r⟩
  | RunOutcome.err e =>
    if isConnectionError e then
      match reconnect with
      | Except.error re =>
        ⟨1, true, getJumpAlias clientVia, RunOutcome.err ("reconnect failed: " ++ re)⟩
      | Except.ok _ => ⟨2, true, getJumpAlias clientVia, second⟩
    else ⟨1, false, none, RunOutcome.err e⟩

/-- Claim C7: a channel-loss error triggers one reconnect (through the
original via alias) and exactly one retry, whose outcome is surfaced;
a failing reconnect is surfaced without retry; any error not matching the
signatures — in particular the canonical authentication failure and Go's
two context-cancellation messages — and any completed command (nonzero exit
included) is surfaced directly with no reconnect. -/
theorem manager_run_retry_policy (clientVia : String) (first : RunOutcome)
    (reconnect : Except String Unit) (second : RunOutcome) :
    (∀ e, first = RunOutcome.err e → isConnectionError e = true →
      reconnect = Except.ok () →
        managerRunRetry clientVia first reconnect second
          = ⟨2, true, getJumpAlias clientVia, second⟩) ∧
    (∀ e re, first = RunOutcome.err e → isConnectionError e = true →
      reconnect = Except.error re →
        managerRunRetry clientVia first reconnect second
          = ⟨1, true, getJumpAlias clientVia, RunOutcome.err ("reconnect failed: " ++ re)⟩) ∧
    (∀ e, first = RunOutcome.err e → isConnectionError e = false →
      managerRunRetry clientVia first reconnect second
        = ⟨1, false, none, RunOutcome.err e⟩) ∧
    (∀ r, first = RunOutcome.ok r →
      managerRunRetry clientVia first reconnect second
        = ⟨1, false, none, RunOutcome.ok r⟩) ∧
    isConnectionError "context canceled" = false ∧
    isConnectionError "context deadline exceeded" = false ∧
    isConnectionError
        "ssh: handshake failed: ssh: unable to authenticate, attempted methods [none password], no supported methods remain"
      = false := by
  refine ⟨?_, ?_, ?_, ?_, by decide, by decide, by decide⟩
  · intro e h1 h2 h3
    subst h1; subst h3
    simp [managerRunRetry, h2]
  · intro e re h1 h2 h3
    subst h1; subst h3
    simp [managerRunRetry, h2]
  · intro e h1 h2
    subst h1
    simp [managerRunRetry, h2]
  · intro r h1
    subst h1
    rfl

/-- Claim C7 witness: a concrete connection-reset error with a jump host:
the command is retried once after reconnecting through the jump, and the
retry's successful result is surfaced. -/
theorem manager_run_retry_policy_witness :
    managerRunRetry "bastion" (RunOutcome.err "read tcp 10.0.0.1:22: connection reset by peer")
        (Except.ok ()) (RunOutcome.ok ⟨"hi", "", 0, "/root"⟩)
      = ⟨2, true, some "bastion", RunOutcome.ok ⟨"hi", "", 0, "/root"⟩⟩ := by
  have h := (manager_run_retry_policy "bastion"
      (RunOutcome.err "read tcp 10.0.0.1:22: connection reset by peer")
      (Except.ok ()) (RunOutcome.ok ⟨"hi", "", 0, "/root"⟩)).1
      "read tcp 10.0.0.1:22: connection reset by peer" rfl (by decide) rfl
  rw [h]
  decide

/-! Idle-session reaping (claim C8). -/

/-- First pass of Pool.reap, pool.go lines 187-201: under the read lock,
collect into the remove-list the keys whose age exceeds the timeout. -/
def reapScan (timeout : Nat) (cache : List String) (ageScan : String → Nat) : List String :=
  cache.filter (fun k => decide (timeout < ageScan k))

/-- Second pass of Pool.reap, pool.go lines 204-221: for each collected key,
under the write lock, check the key is still present and its age still
exceeds the timeout; only then delete it and close its manager (outside the
lock).  ageRecheck gives each entry's age at its removal-time re-check; an
entry touched between the passes has a small recheck age again. -/
def reapRemove (timeout : Nat) (ageRecheck : String → Nat) :
    List String → List String → List String × List String
  | cache, [] => (cache, [])
  | cache, k :: rest =>
    if cache.contains k && decide (timeout < ageRecheck k) then
      let res := reapRemove timeout ageRecheck (cache.erase k) rest
      (res.1, k :: res.2)
    else reapRemove timeout ageRecheck cache rest

/-- One reap pass: the surviving keys and the keys whose managers were
closed. -/
def reapPass (timeout : Nat) (cache : List String) (ageScan ageRecheck : String → Nat) :
    List String × List String :=
  reapRemove timeout ageRecheck cache (reapScan timeout cache ageScan)

theorem reapRemove_spec (timeout : Nat) (ageRecheck : String → Nat) :
    ∀ (toRemove cache : List String), toRemove.Nodup → cache.Nodup →
      (∀ k, k ∈ toRemove → k ∈ cache) →
      ((∀ k, k ∈ (reapRemove timeout ageRecheck cache toRemove).2 →
          k ∈ toRemove ∧ timeout < ageRecheck k) ∧
        (∀ k, k ∈ cache → ageRecheck k ≤ timeout →
          k ∈ (reapRemove timeout ageRecheck cache toRemove).1) ∧
        (∀ k, k ∈ cache → k ∉ toRemove →
          k ∈ (reapRemove timeout ageRecheck cache toRemove).1) ∧
        (∀ k, k ∈ toRemove → timeout < ageRecheck k →
          (reapRemove timeout ageRecheck cache toRemove).2.count k = 1 ∧
            k ∉ (reapRemove timeout ageRecheck cache toRemove).1) ∧
        (∀ k, k ∈ (reapRemove timeout ageRecheck cache toRemove).1 → k ∈ cache)) := by
  intro toRemove
  induction toRemove with
  | nil =>
    intro cache _ _ _
    exact ⟨fun k hk => absurd hk (by simp [reapRemove]),
      fun k hk _ => by simpa [reapRemove] using hk,
      fun k hk _ => by simpa [reapRemove] using hk,
      fun k hk => absurd hk (by simp),
      fun k hk => by simpa [reapRemove] using hk⟩
  | cons k rest ih =>
    intro cache hnd hcnd hsub
    have hkc : k ∈ cache := hsub k (by simp)
    have hknr : k ∉ rest := (List.nodup_cons.mp hnd).1
    have hrnd : rest.Nodup := (List.nodup_cons.mp hnd).2
    by_cases hage : timeout < ageRecheck k
    · have hcond : (cache.contains k && decide (timeout < ageRecheck k)) = true := by
        simp [hage, hkc]
      have hernd : (cache.erase k).Nodup := hcnd.erase k
      have hersub : ∀ j, j ∈ rest → j ∈ cache.erase k := by
        intro j hj
        have hjk : j ≠ k := fun hjk => hknr (hjk ▸ hj)
        exact (hcnd.mem_erase_iff).mpr ⟨hjk, hsub j (by simp [hj])⟩
      obtain ⟨ih1, ih2, ih3, ih4, ih5⟩ := ih (cache.erase k) hrnd hernd hersub
      have hunfold : reapRemove timeout ageRecheck cache (k :: rest)
          = ((reapRemove timeout ageRecheck (cache.erase k) rest).1,
            k :: (reapRemove timeout ageRecheck (cache.erase k) rest).2) := by
        simp only [reapRemove]
        rw [if_pos hcond]
      rw [hunfold]
      refine ⟨?_, ?_, ?_, ?_, ?_⟩
      · intro j hj
        rcases List.mem_cons.mp hj with hj | hj
        · rw [hj]
          exact ⟨by simp, hage⟩
        · obtain ⟨h1, h2⟩ := ih1 j hj
          exact ⟨by simp [h1], h2⟩
      · intro j hj hjage
        have hjk : j ≠ k := by
          intro hjk; subst hjk; omega
        exact ih2 j ((hcnd.mem_erase_iff).mpr ⟨hjk, hj⟩) hjage
      · intro j hj hjnr
        have hjk : j ≠ k := fun hjk => hjnr (by simp [hjk])
        exact ih3 j ((hcnd.mem_erase_iff).mpr ⟨hjk, hj⟩) (fun hjr => hjnr (by simp [hjr]))
      · intro j hj hjage
        rcases List.mem_cons.mp hj with hj | hj
        · rw [hj]
          refine ⟨?_, ?_⟩
          · have hnotin : k ∉ (reapRemove timeout ageRecheck (cache.erase k) rest).2 := by
              intro hmem
              exact hknr (ih1 k hmem).1
            simp [List.count_cons, hnotin, List.count_eq_zero]
          · intro hmem
            have := ih5 k hmem
            exact ((hcnd.mem_erase_iff).mp this).1 rfl
        · have hjk : j ≠ k := fun hjk => hknr (hjk ▸ hj)
          obtain ⟨hc, hs⟩ := ih4 j hj hjage
          refine ⟨?_, hs⟩
          simp [List.count_cons, hjk, hc]
      · intro j hj
        exact ((hcnd.mem_erase_iff).mp (ih5 j hj)).2
    · have hcond : ¬ (cache.contains k && decide (timeout < ageRecheck k)) = true := by
        simp [hage]
      have hunfold : reapRemove timeout ageRecheck cache (k :: rest)
          = reapRemove timeout ageRecheck cache rest := by
        simp only [reapRemove]
        rw [if_neg hcond]
      rw [hunfold]
      obtain ⟨ih1, ih2, ih3, ih4, ih5⟩ := ih cache hrnd hcnd (fun j hj => hsub j (by simp [hj]))
      refine ⟨?_, ih2, ?_, ?_, ih5⟩
      · intro j hj
        obtain ⟨h1, h2⟩ := ih1 j hj
        exact ⟨by simp [h1], h2⟩
      · intro j hj hjnr
        exact ih3 j hj (fun hjr => hjnr (by simp [hjr]))
      · intro j hj hjage
        rcases List.mem_cons.mp hj with hj | hj
        · subst hj; omega
        · exact ih4 j hj hjage

/-- Claim C8: in every reap pass an entry is closed only if its age exceeded
the timeout both at scan time and at the write-lock re-check at removal
time; an entry touched between scan and removal (recheck age back within the
timeout) survives the pass; and an entry that stays expired with no
intervening access is closed exactly once and removed. -/
theorem reap_recheck_under_lock (timeout : Nat) (cache : List String)
    (ageScan ageRecheck : String → Nat) (hnodup : cache.Nodup) :
    (∀ k, k ∈ (reapPass timeout cache ageScan ageRecheck).2 →
      timeout < ageScan k ∧ timeout < ageRecheck k) ∧
    (∀ k, k ∈ cache → ageRecheck k ≤ timeout →
      k ∈ (reapPass timeout cache ageScan ageRecheck).1) ∧
    (∀ k, k ∈ cache → timeout < ageScan k → timeout < ageRecheck k →
      (reapPass timeout cache ageScan ageRecheck).2.count k = 1 ∧
        k ∉ (reapPass timeout cache ageScan ageRecheck).1) := by
  have hscan_nd : (reapScan timeout cache ageScan).Nodup := hnodup.filter _
  have hscan_sub : ∀ k, k ∈ reapScan timeout cache ageScan → k ∈ cache := by
    intro k hk
    exact List.mem_of_mem_filter hk
  obtain ⟨h1, h2, h3, h4, h5⟩ :=
    reapRemove_spec timeout ageRecheck (reapScan timeout cache ageScan) cache
      hscan_nd hnodup hscan_sub
  refine ⟨?_, h2, ?_⟩
  · intro k hk
    obtain ⟨hmem, hrec⟩ := h1 k hk
    have := List.of_mem_filter hmem
    exact ⟨by simpa using this, hrec⟩
  · intro k hk hsc hrc
    have hmem : k ∈ reapScan timeout cache ageScan := by
      refine List.mem_filter.mpr ⟨hk, by simpa using hsc⟩
    exact h4 k hmem hrc

/-- Claim C8 witness: two entries, both expired at scan time; entry "a" is
untouched and gets closed exactly once; entry "b" is touched between the
passes and survives. -/
theorem reap_recheck_under_lock_witness :
    (reapPass 300 ["a", "b"] (fun _ => 400) (fun k => if k == "a" then 400 else 0)).2.count "a" = 1 ∧
    "a" ∉ (reapPass 300 ["a", "b"] (fun _ => 400) (fun k => if k == "a" then 400 else 0)).1 ∧
    "b" ∈ (reapPass 300 ["a", "b"] (fun _ => 400) (fun k => if k == "a" then 400 else 0)).1 := by
  have h := reap_recheck_under_lock 300 ["a", "b"] (fun _ => 400)
    (fun k => if k == "a" then 400 else 0) (by decide)
  obtain ⟨hc, hnot⟩ := h.2.2 "a" (by decide) (by decide) (by decide)
  exact ⟨hc, hnot, h.2.1 "b" (by decide) (by decide)⟩

/-! Run stdout processing and CWD tracking (claims C6 and C9). -/

/-- Scan for the first occurrence of pat: the characters before it and the
characters after it (client.go lines 195-197, strings.Index plus slicing). -/
def splitFirstAux (pat : List Char) : List Char → Option (List Char × List Char)
  | [] => none
  | c :: rest =>
    if pat.isPrefixOf (c :: rest) then some ([], (c :: rest).drop pat.length)
    else
      match splitFirstAux pat rest with
      | some res => some (c :: res.1, res.2)
      | none => none

/-- Split stdout at the first occurrence of the delimiter; none when the
delimiter does not occur (strings.Index returning -1).  An empty delimiter
matches at position 0, as Go's strings.Index does. -/
def splitOnFirst (s delim : String) : Option (String × String) :=
  if delim = "" then some ("", s)
  else
    match splitFirstAux delim.data s.data with
    | some res => some (⟨res.1⟩, ⟨res.2⟩)
    | none => none

/-- Stdout post-processing of Client.Run, client.go lines 193-208: when the
per-call delimiter occurs, the part before it (trimmed) is the command
output and the trimmed part after it becomes the new CWD when non-empty;
otherwise the whole stdout (trimmed) is the output and the CWD is kept.
Returns (output, new cwd). -/
def runProcessStdout (cwd delim rawStdout : String) : String × String :=
  match splitOnFirst rawStdout delim with
  | none => (strTrim rawStdout, cwd)
  | some res =>
    let remaining := strTrim res.2
    (strTrim res.1, if remaining = "" then cwd else remaining)

/-- The wrapped command Client.Run sends, client.go lines 145-149 (Go %q
quoting of the CWD rendered as plain double quotes, exact for paths free of
escape characters). -/
def wrappedCmd (cwd cmd delim : String) : String :=
  "cd \"" ++ cwd ++ "\" && " ++ cmd ++ "; __EXIT__=$?; echo \"\"; echo \""
    ++ delim ++ "\"; pwd; exit $__EXIT__"

/-- Alias lookup in a Manager's connection map. -/
def lookupConn (m : ManagerState) (a : String) : Option (Option ClientState) :=
  (m.connections.find? (fun p => p.1 == a)).map (fun p => p.2)

/-- Manager.Run's effect on the connection map for one completed wrapped
command on alias a: only that alias's client has its CWD replaced by the
post-processing result.  The raw stdout produced by the remote host for the
wrapped command is an oracle argument. -/
def mgrRunProcess (m : ManagerState) (a delim rawStdout : String) :
    Option (String × ManagerState) :=
  match lookupConn m a with
  | some (some c) =>
    let res := runProcessStdout c.cwd delim rawStdout
    some (res.1,
      { m with connections :=
          m.connections.map (fun p => if p.1 == a then (p.1, some ⟨res.2⟩) else p) })
  | _ => none

/-- The wrapped command the NEXT Run on an alias would send, reading the
stored CWD as client.go lines 141-149 do. -/
def nextWrappedCmd (m : ManagerState) (a cmd delim : String) : Option String :=
  match lookupConn m a with
  | some (some c) => some (wrappedCmd c.cwd cmd delim)
  | _ => none

theorem findMapUpdate_self (l : List (String × Option ClientState)) (a : String)
    (v : Option ClientState) (p0 : String × Option ClientState)
    (hf : l.find? (fun p => p.1 == a) = some p0) :
    (l.map (fun p => if p.1 == a then (p.1, v) else p)).find? (fun p => p.1 == a)
      = some (p0.1, v) := by
  induction l with
  | nil => simp at hf
  | cons p t ih =>
    rw [List.find?_cons] at hf
    by_cases hc : (p.1 == a) = true
    · simp only [hc] at hf
      injection hf with hf
      subst hf
      simp only [List.map_cons]
      rw [if_pos hc, List.find?_cons]
      simp only [hc]
    · have hcb : (p.1 == a) = false := by simpa using hc
      simp only [hcb] at hf
      simp only [List.map_cons]
      rw [if_neg hc, List.find?_cons]
      simp only [hcb]
      exact ih hf

theorem findMapUpdate_other (l : List (String × Option ClientState)) (a b : String)
    (v : Option ClientState) (hne : b ≠ a) :
    (l.map (fun p => if p.1 == a then (p.1, v) else p)).find? (fun p => p.1 == b)
      = l.find? (fun p => p.1 == b) := by
  induction l with
  | nil => rfl
  | cons p t ih =>
    simp only [List.map_cons]
    by_cases hb : (p.1 == b) = true
    · have hbeq : p.1 = b := by simpa using hb
      have ha : ¬ (p.1 == a) = true := by simp [hbeq, hne]
      rw [if_neg ha, List.find?_cons, List.find?_cons]
      simp only [hb]
    · have hbf : (p.1 == b) = false := by simpa using hb
      by_cases ha : (p.1 == a) = true
      · rw [if_pos ha, List.find?_cons, List.find?_cons]
        simp only [hbf]
        exact ih
      · rw [if_neg ha, List.find?_cons, List.find?_cons]
        simp only [hbf]
        exact ih

theorem lookupConn_update_self (m : ManagerState) (a : String) (v : Option ClientState)
    (w : Option ClientState) (hconn : lookupConn m a = some w) :
    lookupConn
        { m with connections :=
            m.connections.map (fun p => if p.1 == a then (p.1, v) else p) } a
      = some v := by
  unfold lookupConn at hconn ⊢
  obtain ⟨p0, hp0, _⟩ := Option.map_eq_some'.mp hconn
  rw [findMapUpdate_self m.connections a v p0 hp0]
  rfl

/-- Claim C6: for a Run whose wrapped-command stdout contains the per-call
nonce delimiter with a post-delimiter part that trims non-empty (the wrapper
always ends with a pwd line printing the shell's final directory — for
Run "cd X" that line is the absolute resolution of X), the caller receives
exactly the pre-delimiter stdout, trimmed; the trimmed post-delimiter text
becomes the alias's new stored CWD, so the next Run on that alias wraps its
command with a cd into that directory; and no other alias's stored CWD or
state changes. -/
theorem run_nonce_split (m : ManagerState) (a delim raw pre post out : String)
    (c : ClientState) (m' : ManagerState)
    (hconn : lookupConn m a = some (some c))
    (hsplit : splitOnFirst raw delim = some (pre, post))
    (hpost : strTrim post ≠ "")
    (hrun : mgrRunProcess m a delim raw = some (out, m')) :
    out = strTrim pre ∧
    lookupConn m' a = some (some ⟨strTrim post⟩) ∧
    (∀ cmd2 delim2, nextWrappedCmd m' a cmd2 delim2
        = some (wrappedCmd (strTrim post) cmd2 delim2)) ∧
    (∀ b, b ≠ a → lookupConn m' b = lookupConn m b) := by
  have hres : runProcessStdout c.cwd delim raw = (strTrim pre, strTrim post) := by
    simp only [runProcessStdout, hsplit]
    rw [if_neg hpost]
  simp only [mgrRunProcess, hconn, hres] at hrun
  injection hrun with hrun
  injection hrun with hout hm'
  subst hout
  subst hm'
  have hself := lookupConn_update_self m a (some ⟨strTrim post⟩) (some c) hconn
  refine ⟨rfl, hself, ?_, ?_⟩
  · intro cmd2 delim2
    simp only [nextWrappedCmd, hself]
  · intro b hb
    unfold lookupConn
    rw [findMapUpdate_other m.connections a b (some ⟨strTrim post⟩) hb]

/-- Claim C9, amended: when the wrapped command's stdout does not contain
the delimiter, the stored CWD of the alias is unchanged and the whole
stdout, trimmed, is returned; when the delimiter occurs but the
post-delimiter text trims to empty, the CWD is likewise unchanged but the
returned output is the PRE-delimiter portion (trimmed), not the entire
stdout; in both cases no other alias's entry changes. -/
theorem run_cwd_frame (m : ManagerState) (a delim raw out : String) (c : ClientState)
    (m' : ManagerState)
    (hconn : lookupConn m a = some (some c))
    (hrun : mgrRunProcess m a delim raw = some (out, m')) :
    (splitOnFirst raw delim = none →
      out = strTrim raw ∧ lookupConn m' a = some (some c) ∧
        ∀ b, b ≠ a → lookupConn m' b = lookupConn m b) ∧
    (∀ pre post, splitOnFirst raw delim = some (pre, post) → strTrim post = "" →
      out = strTrim pre ∧ lookupConn m' a = some (some c) ∧
        ∀ b, b ≠ a → lookupConn m' b = lookupConn m b) := by
  constructor
  · intro hsplit
    have hres : runProcessStdout c.cwd delim raw = (strTrim raw, c.cwd) := by
      simp only [runProcessStdout, hsplit]
    simp only [mgrRunProcess, hconn, hres] at hrun
    injection hrun with hrun
    injection hrun with hout hm'
    subst hout
    subst hm'
    have hself := lookupConn_update_self m a (some ⟨c.cwd⟩) (some c) hconn
    refine ⟨rfl, hself, ?_⟩
    intro b hb
    unfold lookupConn
    rw [findMapUpdate_other m.connections a b (some ⟨c.cwd⟩) hb]
  · intro pre post hsplit hpost
    have hres : runProcessStdout c.cwd delim raw = (strTrim pre, c.cwd) := by
      simp only [runProcessStdout, hsplit]
      rw [if_pos hpost]
    simp only [mgrRunProcess, hconn, hres] at hrun
    injection hrun with hrun
    injection hrun with hout hm'
    subst hout
    subst hm'
    have hself := lookupConn_update_self m a (some ⟨c.cwd⟩) (some c) hconn
    refine ⟨rfl, hself, ?_⟩
    intro b hb
    unfold lookupConn
    rw [findMapUpdate_other m.connections a b (some ⟨c.cwd⟩) hb]

/-- Claim C6 witness: a two-alias manager; on alias A the wrapped command
for Run "cd /tmp" produces stdout consisting of the blank user-output line,
the nonce line, and the pwd line "/tmp"; afterwards A's stored CWD is /tmp
and B's is untouched. -/
theorem run_nonce_split_witness :
    lookupConn ⟨[("A", some ⟨"/tmp"⟩), ("B", some ⟨"/var"⟩)], "A"⟩ "A" = some (some ⟨"/tmp"⟩) ∧
    lookupConn ⟨[("A", some ⟨"/tmp"⟩), ("B", some ⟨"/var"⟩)], "A"⟩ "B" = some (some ⟨"/var"⟩) := by
  have h := run_nonce_split ⟨[("A", some ⟨"/home"⟩), ("B", some ⟨"/var"⟩)], "A"⟩ "A"
    "___MCP_PWD_1___" "\n___MCP_PWD_1___\n/tmp\n" "\n" "\n/tmp\n" ""
    ⟨"/home"⟩ ⟨[("A", some ⟨"/tmp"⟩), ("B", some ⟨"/var"⟩)], "A"⟩
    (by decide) (by decide) (by decide) (by decide)
  constructor
  · rw [h.2.1]
    decide
  · rw [h.2.2.2 "B" (by decide)]
    decide

/-- Claim C9 witness: stdout without the delimiter: the whole stdout trimmed
is returned and the stored CWD of the alias, and of every other alias, is
unchanged. -/
theorem run_cwd_frame_witness :
    lookupConn ⟨[("A", some ⟨"/home"⟩), ("B", some ⟨"/var"⟩)], "A"⟩ "A" = some (some ⟨"/home"⟩) ∧
    lookupConn ⟨[("A", some ⟨"/home"⟩), ("B", some ⟨"/var"⟩)], "A"⟩ "B" = some (some ⟨"/var"⟩) := by
  have h := (run_cwd_frame ⟨[("A", some ⟨"/home"⟩), ("B", some ⟨"/var"⟩)], "A"⟩ "A"
    "___MCP_PWD_1___" "hello\n" "hello" ⟨"/home"⟩
    ⟨[("A", some ⟨"/home"⟩), ("B", some ⟨"/var"⟩)], "A"⟩
    (by decide) (by decide)).1 (by decide)
  exact ⟨h.2.1, by rw [h.2.2 "B" (by decide)]; decide⟩

/-- Claim C9 counterexample: with the delimiter present but a post-delimiter
part that trims to empty, Run returns the pre-delimiter portion "out", while
the whole stdout trimmed still carries the delimiter text: the claim's
"entire captured stdout (trimmed) is returned" fails at this input (the CWD
is indeed left unchanged). -/
theorem run_empty_tail_output_not_whole :
    runProcessStdout "/home/u" "___MCP_PWD_7___" "out\n___MCP_PWD_7___ \n"
      = ("out", "/home/u") ∧
    strTrim "out\n___MCP_PWD_7___ \n"
      ≠ (runProcessStdout "/home/u" "___MCP_PWD_7___" "out\n___MCP_PWD_7___ \n").1 := by
  decide

end SSHMCP
